import Mathlib

/-!
Shallow embedding of the core of the buildingMicroservices repository:
the currency rate store (`currency/data/rates.go`), the currency gRPC
server (`currency/server/currency.go`), the in-process event bus
(`product-api/internal/events`), the product repository
(`product-api/internal/repository`), and the product / currency services
(`product-api/internal/service`).  Maps are embedded as association
lists, `float64` as `ℚ`, Go `int` as `ℤ`, time stamps as `ℕ`, and the
random source of the rate monitor as explicit function parameters.
-/

namespace Micro

/-- Currency codes from `currency/protos/currency.proto`; `UNKNOWN` is the
sentinel with index 0 used to mark heartbeats.  Only a representative
subset of the enum is embedded; the omitted codes behave identically. -/
inductive Currencies where
  | UNKNOWN
  | EUR
  | USD
  | GBP
  | JPY
deriving DecidableEq

def Currencies.toName : Currencies → String
  | .UNKNOWN => "UNKNOWN"
  | .EUR => "EUR"
  | .USD => "USD"
  | .GBP => "GBP"
  | .JPY => "JPY"

/-- Association-list lookup, first match wins: the embedding of a Go map
read `m[k]`. -/
def alookup {α β : Type} [DecidableEq α] : List (α × β) → α → Option β
  | [], _ => none
  | (k, v) :: rest, key => if k = key then some v else alookup rest key

/-- Association-list write `m[k] = v`: replaces the first binding of the
key, or appends a new binding. -/
def astore {α β : Type} [DecidableEq α] : List (α × β) → α → β → List (α × β)
  | [], key, v => [(key, v)]
  | (k, w) :: rest, key, v =>
      if k = key then (key, v) :: rest else (k, w) :: astore rest key v

theorem alookup_astore_self {α β : Type} [DecidableEq α]
    (l : List (α × β)) (k : α) (v : β) : alookup (astore l k v) k = some v := by
  induction l with
  | nil => simp [astore, alookup]
  | cons hd tl ih =>
    obtain ⟨k2, w⟩ := hd
    by_cases h : k2 = k <;> simp [astore, alookup, h, ih]

theorem alookup_astore_other {α β : Type} [DecidableEq α]
    (l : List (α × β)) (k k2 : α) (v : β) (h : k2 ≠ k) :
    alookup (astore l k v) k2 = alookup l k2 := by
  have hk : k ≠ k2 := Ne.symm h
  induction l with
  | nil => simp [astore, alookup, hk]
  | cons hd tl ih =>
    obtain ⟨k3, w⟩ := hd
    by_cases h3 : k3 = k
    · subst h3
      simp [astore, alookup, hk]
    · by_cases h4 : k3 = k2 <;> simp [astore, alookup, h3, h4, h, ih]

theorem astore_of_alookup_eq {α β : Type} [DecidableEq α]
    (l : List (α × β)) (k : α) (v : β) (h : alookup l k = some v) :
    astore l k v = l := by
  induction l with
  | nil => simp [alookup] at h
  | cons hd tl ih =>
    obtain ⟨k2, w⟩ := hd
    by_cases h2 : k2 = k
    · subst h2
      simp [alookup] at h
      simp [astore, h]
    · simp [alookup, h2] at h
      simp [astore, h2, ih h]

/-- Exchange-rate table of the rate store: currency name to rate against
EUR (`ExchangeRates.rates` in `currency/data/rates.go`); `float64`
embedded as `ℚ`. -/
abbrev RateTable := List (String × ℚ)

namespace ExchangeRates

/-- Embedding of `ExchangeRates.GetRate` (`currency/data/rates.go`):
look up the base and then the destination, failing with the source's
message when either is absent, and return `dest / base` otherwise. -/
def GetRate (rates : RateTable) (base dest : String) : Except String ℚ :=
  match alookup rates base with
  | none => .error ("rate not found for currency " ++ base)
  | some br =>
    match alookup rates dest with
    | none => .error ("rate not found for currency " ++ dest)
    | some dr => .ok (dr / br)

end ExchangeRates

/-- Wire rate request (`protos.RateRequest`). -/
structure RateRequest where
  base : Currencies
  destination : Currencies
deriving DecidableEq

/-- Wire rate response (`protos.RateResponse`). -/
structure RateResponse where
  base : Currencies
  destination : Currencies
  rate : ℚ
deriving DecidableEq

/-- gRPC status codes used by the currency server. -/
inductive GrpcCode where
  | InvalidArgument
  | NotFound
  | Internal
deriving DecidableEq

/-- A gRPC error: code plus message. -/
structure GrpcError where
  code : GrpcCode
  msg : String
deriving DecidableEq

namespace Currency

/-- Embedding of the unary `Currency.GetRate` handler
(`currency/server/currency.go`): validation in source order
(base = destination first, then the two `UNKNOWN` checks), then the
store lookup, mapping a store failure to `NotFound`. -/
def GetRate (rates : RateTable) (rr : RateRequest) : Except GrpcError RateResponse :=
  if rr.base = rr.destination then
    .error ⟨.InvalidArgument, "Base currency cannot be equal to destination currency"⟩
  else if rr.base = Currencies.UNKNOWN then
    .error ⟨.InvalidArgument, "Base currency is not specified"⟩
  else if rr.destination = Currencies.UNKNOWN then
    .error ⟨.InvalidArgument, "Destination currency is not specified"⟩
  else
    match ExchangeRates.GetRate rates rr.base.toName rr.destination.toName with
    | .error _ => .error ⟨.NotFound, "Exchange rate not found"⟩
    | .ok rate => .ok ⟨rr.base, rr.destination, rate⟩

end Currency

namespace EventBus

/-- Capacity of every subscriber queue, from `make(Subscriber[T], 100)`
in `EventBus.Subscribe`. -/
def capacity : ℕ := 100

/-- Embedding of `EventBus.Publish`: the bus state is the list of
subscriber queues (oldest event first); the non-blocking `select` send
appends to a queue with free space and drops the event for a full
queue.  The embedding is a total function: publish never fails, and the
drop branch is what makes it non-blocking. -/
def Publish {T : Type} (queues : List (List T)) (event : T) : List (List T) :=
  queues.map (fun q => if q.length < capacity then q ++ [event] else q)

/-- Embedding of `EventBus.Subscribe`: registers a fresh empty queue. -/
def Subscribe {T : Type} (queues : List (List T)) : List (List T) :=
  queues ++ [[]]

end EventBus

/-- C2: for every event-bus state and every event, publish delivers the
event to exactly the registered queues with free space (capacity 100):
a queue shorter than 100 becomes the old queue with the event appended
(so each subscriber sees events in publish order), a full queue is left
unchanged (the event is dropped for that subscriber only, without
affecting the others), and publish is a total function on all states —
it never blocks and never returns an error. -/
theorem claim_C2_publish_delivery {T : Type} (queues : List (List T)) (event : T) :
    (EventBus.Publish queues event).length = queues.length ∧
    ∀ i : ℕ, (EventBus.Publish queues event)[i]? =
      (queues[i]?).map (fun q =>
        if q.length < EventBus.capacity then q ++ [event] else q) := by
  constructor
  · simp [EventBus.Publish]
  · intro i
    simp [EventBus.Publish]

/-- C3: characterisation of the unary GetRate handler: InvalidArgument
exactly when base = dest or either code is UNKNOWN; otherwise NotFound
exactly when the table lacks the base or the destination; otherwise the
response carries the quotient table[dest] / table[base]. -/
theorem claim_C3_getRate_classification (rates : RateTable) (rr : RateRequest) :
    ((∃ m, Currency.GetRate rates rr = .error ⟨GrpcCode.InvalidArgument, m⟩) ↔
      (rr.base = rr.destination ∨ rr.base = Currencies.UNKNOWN ∨
        rr.destination = Currencies.UNKNOWN)) ∧
    ((∃ m, Currency.GetRate rates rr = .error ⟨GrpcCode.NotFound, m⟩) ↔
      (¬(rr.base = rr.destination ∨ rr.base = Currencies.UNKNOWN ∨
          rr.destination = Currencies.UNKNOWN) ∧
        (alookup rates rr.base.toName = none ∨
          alookup rates rr.destination.toName = none))) ∧
    (∀ br dr, ¬(rr.base = rr.destination ∨ rr.base = Currencies.UNKNOWN ∨
          rr.destination = Currencies.UNKNOWN) →
      alookup rates rr.base.toName = some br →
      alookup rates rr.destination.toName = some dr →
      Currency.GetRate rates rr = .ok ⟨rr.base, rr.destination, dr / br⟩) := by
  by_cases h1 : rr.base = rr.destination
  · simp [Currency.GetRate, h1]
  · by_cases h2 : rr.base = Currencies.UNKNOWN
    · have h1b : ¬(Currencies.UNKNOWN = rr.destination) := h2 ▸ h1
      simp [Currency.GetRate, h1, h2, h1b]
    · by_cases h3 : rr.destination = Currencies.UNKNOWN
      · simp [Currency.GetRate, h1, h2, h3]
      · refine ⟨?_, ?_, ?_⟩
        · simp only [Currency.GetRate, if_neg h1, if_neg h2, if_neg h3]
          constructor
          · rintro ⟨m, hm⟩
            exfalso
            cases hb : alookup rates rr.base.toName with
            | none => simp [ExchangeRates.GetRate, hb] at hm
            | some br =>
              cases hd : alookup rates rr.destination.toName with
              | none => simp [ExchangeRates.GetRate, hb, hd] at hm
              | some dr => simp [ExchangeRates.GetRate, hb, hd] at hm
          · intro hcontra
            exact absurd hcontra (by simp [h1, h2, h3])
        · simp only [Currency.GetRate, if_neg h1, if_neg h2, if_neg h3]
          constructor
          · rintro ⟨m, hm⟩
            refine ⟨by simp [h1, h2, h3], ?_⟩
            cases hb : alookup rates rr.base.toName with
            | none => exact Or.inl rfl
            | some br =>
              cases hd : alookup rates rr.destination.toName with
              | none => exact Or.inr rfl
              | some dr => simp [ExchangeRates.GetRate, hb, hd] at hm
          · rintro ⟨-, habs⟩
            cases hb : alookup rates rr.base.toName with
            | none => exact ⟨"Exchange rate not found", by simp [ExchangeRates.GetRate, hb]⟩
            | some br =>
              cases hd : alookup rates rr.destination.toName with
              | none => exact ⟨"Exchange rate not found", by simp [ExchangeRates.GetRate, hb, hd]⟩
              | some dr =>
                rcases habs with habs | habs
                · exact absurd habs (by simp [hb])
                · exact absurd habs (by simp [hd])
        · intro br dr _ hb hd
          simp [Currency.GetRate, h1, h2, h3, ExchangeRates.GetRate, hb, hd]

/-- C7: for a table holding positive rates for both codes, the two
directed rates multiply to 1 exactly, in particular within the 1e-9
floating-point tolerance (the `float64` arithmetic of the source is
embedded as exact rational arithmetic). -/
theorem claim_C7_reciprocal_rates (rates : RateTable) (a b : String) (ra rb : ℚ)
    (ha : alookup rates a = some ra) (hb : alookup rates b = some rb)
    (hpa : 0 < ra) (hpb : 0 < rb) :
    ∃ r1 r2, ExchangeRates.GetRate rates a b = .ok r1 ∧
      ExchangeRates.GetRate rates b a = .ok r2 ∧
      |r1 * r2 - 1| ≤ 1 / 1000000000 := by
  refine ⟨rb / ra, ra / rb, ?_, ?_, ?_⟩
  · simp [ExchangeRates.GetRate, ha, hb]
  · simp [ExchangeRates.GetRate, ha, hb]
  · have h1 : rb / ra * (ra / rb) = 1 := by
      field_simp
    rw [h1]
    norm_num

/-- Witness for C3: at the demo table below, GetRate (EUR, USD) succeeds
with the quotient 1.10 / 1. -/
theorem claim_C3_getRate_classification_witness :
    Currency.GetRate [("EUR", 1), ("USD", (11 : ℚ) / 10)] ⟨Currencies.EUR, Currencies.USD⟩ =
      .ok ⟨Currencies.EUR, Currencies.USD, (11 : ℚ) / 10 / 1⟩ :=
  (claim_C3_getRate_classification [("EUR", 1), ("USD", (11 : ℚ) / 10)]
      ⟨Currencies.EUR, Currencies.USD⟩).2.2 1 ((11 : ℚ) / 10)
    (by simp) (by simp [alookup, Currencies.toName]) (by simp [alookup, Currencies.toName])

/-- Demonstration rate table used by witnesses: EUR at 1, USD at 1.10. -/
def demoRates : RateTable := [("EUR", 1), ("USD", (11 : ℚ) / 10)]

/-- Witness for C7 at the demo table and the pair (EUR, USD). -/
theorem claim_C7_reciprocal_rates_witness :
    ∃ r1 r2, ExchangeRates.GetRate demoRates "EUR" "USD" = .ok r1 ∧
      ExchangeRates.GetRate demoRates "USD" "EUR" = .ok r2 ∧
      |r1 * r2 - 1| ≤ 1 / 1000000000 :=
  claim_C7_reciprocal_rates demoRates "EUR" "USD" 1 ((11 : ℚ) / 10)
    (by simp [demoRates, alookup]) (by simp [demoRates, alookup])
    (by norm_num) (by norm_num)

/-- Per-stream subscription record (`clientSubscription` in
`currency/server/currency.go`); `time.Time` embedded as `ℕ`. -/
structure ClientSub where
  rateRequests : List RateRequest
  lastActivity : ℕ
deriving DecidableEq

/-- Subscription registry of the currency server, keyed by a stable
per-stream identifier (the Go map is keyed by the server stream handle). -/
abbrev SubsMap := List (ℕ × ClientSub)

/-- Embedding of `isHeartbeat`: both codes are `UNKNOWN`. -/
def isHeartbeat (rr : RateRequest) : Bool :=
  rr.base == Currencies.UNKNOWN && rr.destination == Currencies.UNKNOWN

/-- Embedding of `Currency.validateRateRequest`, returning the source's
message strings, `""` meaning valid. -/
def validateRateRequest (rr : RateRequest) : String :=
  if rr.base = Currencies.UNKNOWN then "Base currency is not specified"
  else if rr.destination = Currencies.UNKNOWN then "Destination currency is not specified"
  else if rr.base = rr.destination then "Base currency cannot be the same as destination currency"
  else ""

/-- Embedding of `Currency.updateClientActivity`: refresh `lastActivity`
of the stream's entry when one exists, otherwise do nothing (the Go map
has at most one binding per key, so first-match update is exact). -/
def updateClientActivity : SubsMap → ℕ → ℕ → SubsMap
  | [], _, _ => []
  | (k, sub) :: rest, stream, now =>
      if k = stream then (k, ⟨sub.rateRequests, now⟩) :: rest
      else (k, sub) :: updateClientActivity rest stream now

/-- Embedding of `Currency.subscriptionExists`: the stream's entry, if
any, already holds a request with the same base and destination. -/
def subscriptionExists (subs : SubsMap) (stream : ℕ) (rr : RateRequest) : Bool :=
  match alookup subs stream with
  | some sub => sub.rateRequests.any
      (fun r => r.base == rr.base && r.destination == rr.destination)
  | none => false

/-- Embedding of `Currency.addSubscription`: append the request to the
stream's entry (created empty when absent) and refresh `lastActivity`. -/
def addSubscription (subs : SubsMap) (stream : ℕ) (rr : RateRequest) (now : ℕ) : SubsMap :=
  match alookup subs stream with
  | some sub => astore subs stream ⟨sub.rateRequests ++ [rr], now⟩
  | none => subs ++ [(stream, ⟨[rr], now⟩)]

/-- Embedding of `Currency.removeSubscription`: drop the stream's entry. -/
def removeSubscription (subs : SubsMap) (stream : ℕ) : SubsMap :=
  subs.filter (fun e => e.1 != stream)

/-- Outbound message on the subscription stream
(`protos.StreamingRateResponse`): a rate response or an error status
carrying the echoed offending request as detail. -/
inductive StreamMsg where
  | rateResponse (r : RateResponse)
  | errorStatus (code : GrpcCode) (msg : String) (detail : RateRequest)
deriving DecidableEq

/-- One receive outcome of `clientStream.Recv()` in `SubscribeRates`. -/
inductive RecvEvent where
  | msg (rr : RateRequest)
  | eof
  | recvError
deriving DecidableEq

/-- Result of one iteration of the `SubscribeRates` receive loop: the new
registry, the messages passed to `clientStream.Send`, whether the loop
continues (the stream stays open), and the status returned if it exits. -/
structure StepResult where
  subs : SubsMap
  sent : List StreamMsg
  continues : Bool
  retCode : Option GrpcCode
deriving DecidableEq

/-- Duplicate-subscription message from `Currency.SubscribeRates`. -/
def duplicateMsg : String := "Subscription already exists for this currency pair!"

/-- Embedding of one iteration of the `Currency.SubscribeRates` receive
loop (`currency/server/currency.go`): EOF and receive errors drop the
subscription and exit; a heartbeat only refreshes activity; an invalid
request or a duplicate pair is answered with an in-stream
`InvalidArgument` status and not registered; otherwise the request is
appended.  `sendOk` tells whether `clientStream.Send` succeeds; a failed
send drops the subscription and exits with `Internal`. -/
def subscribeRatesStep (subs : SubsMap) (stream : ℕ) (ev : RecvEvent) (now : ℕ)
    (sendOk : Bool) : StepResult :=
  match ev with
  | .eof => ⟨removeSubscription subs stream, [], false, none⟩
  | .recvError => ⟨removeSubscription subs stream, [], false, some .Internal⟩
  | .msg rr =>
    if isHeartbeat rr then
      ⟨updateClientActivity subs stream now, [], true, none⟩
    else
      let errMsg := validateRateRequest rr
      if errMsg ≠ "" then
        if sendOk then ⟨subs, [.errorStatus .InvalidArgument errMsg rr], true, none⟩
        else ⟨removeSubscription subs stream,
          [.errorStatus .InvalidArgument errMsg rr], false, some .Internal⟩
      else if subscriptionExists subs stream rr then
        if sendOk then ⟨subs, [.errorStatus .InvalidArgument duplicateMsg rr], true, none⟩
        else ⟨removeSubscription subs stream,
          [.errorStatus .InvalidArgument duplicateMsg rr], false, some .Internal⟩
      else ⟨addSubscription subs stream rr now, [], true, none⟩

theorem alookup_updateClientActivity_self (subs : SubsMap) (stream now : ℕ) :
    alookup (updateClientActivity subs stream now) stream =
      (alookup subs stream).map (fun s => ⟨s.rateRequests, now⟩) := by
  induction subs with
  | nil => rfl
  | cons hd tl ih =>
    obtain ⟨k, sub⟩ := hd
    by_cases h : k = stream <;> simp [updateClientActivity, alookup, h, ih]

theorem alookup_updateClientActivity_other (subs : SubsMap) (stream now k : ℕ)
    (h : k ≠ stream) :
    alookup (updateClientActivity subs stream now) k = alookup subs k := by
  induction subs with
  | nil => rfl
  | cons hd tl ih =>
    obtain ⟨k2, sub⟩ := hd
    by_cases h2 : k2 = stream
    · subst h2
      simp [updateClientActivity, alookup, Ne.symm h]
    · by_cases h3 : k2 = k <;> simp [updateClientActivity, alookup, h2, h3, h, ih]

theorem updateClientActivity_of_none (subs : SubsMap) (stream now : ℕ)
    (h : alookup subs stream = none) :
    updateClientActivity subs stream now = subs := by
  induction subs with
  | nil => rfl
  | cons hd tl ih =>
    obtain ⟨k, sub⟩ := hd
    by_cases h2 : k = stream
    · simp [alookup, h2] at h
    · simp [alookup, h2] at h
      simp [updateClientActivity, h2, ih h]

/-- C4: receiving a heartbeat (both codes UNKNOWN) on the subscription
stream sends nothing back, keeps the stream open, never creates an
entry (a registry without the stream is left untouched), never extends
any request list, and refreshes `lastActivity` to the current time
exactly when the stream already has an entry; all other entries are
unchanged. -/
theorem claim_C4_heartbeat_step (subs : SubsMap) (stream now : ℕ) (sendOk : Bool)
    (rr : RateRequest) (hhb : isHeartbeat rr = true) :
    (subscribeRatesStep subs stream (.msg rr) now sendOk).sent = [] ∧
    (subscribeRatesStep subs stream (.msg rr) now sendOk).continues = true ∧
    (subscribeRatesStep subs stream (.msg rr) now sendOk).retCode = none ∧
    alookup (subscribeRatesStep subs stream (.msg rr) now sendOk).subs stream =
      (alookup subs stream).map (fun s => ⟨s.rateRequests, now⟩) ∧
    (∀ k, k ≠ stream →
      alookup (subscribeRatesStep subs stream (.msg rr) now sendOk).subs k = alookup subs k) ∧
    (alookup subs stream = none →
      (subscribeRatesStep subs stream (.msg rr) now sendOk).subs = subs) := by
  have hstep : subscribeRatesStep subs stream (.msg rr) now sendOk =
      ⟨updateClientActivity subs stream now, [], true, none⟩ := by
    simp [subscribeRatesStep, hhb]
  rw [hstep]
  exact ⟨rfl, rfl, rfl, alookup_updateClientActivity_self subs stream now,
    fun k hk => alookup_updateClientActivity_other subs stream now k hk,
    updateClientActivity_of_none subs stream now⟩

/-- Witness for C4: heartbeat on a registry holding streams 7 and 9. -/
theorem claim_C4_heartbeat_step_witness :
    (subscribeRatesStep [(7, ⟨[⟨Currencies.EUR, Currencies.USD⟩], 3⟩), (9, ⟨[], 4⟩)] 7
        (.msg ⟨Currencies.UNKNOWN, Currencies.UNKNOWN⟩) 11 true).sent = [] ∧
    alookup (subscribeRatesStep [(7, ⟨[⟨Currencies.EUR, Currencies.USD⟩], 3⟩), (9, ⟨[], 4⟩)] 7
        (.msg ⟨Currencies.UNKNOWN, Currencies.UNKNOWN⟩) 11 true).subs 7 =
      some ⟨[⟨Currencies.EUR, Currencies.USD⟩], 11⟩ := by
  have h := claim_C4_heartbeat_step
    [(7, ⟨[⟨Currencies.EUR, Currencies.USD⟩], 3⟩), (9, ⟨[], 4⟩)] 7 11 true
    ⟨Currencies.UNKNOWN, Currencies.UNKNOWN⟩ (by decide)
  refine ⟨h.1, ?_⟩
  rw [h.2.2.2.1]
  simp [alookup]

theorem validateRateRequest_empty_iff (rr : RateRequest) :
    validateRateRequest rr = "" ↔
      (rr.base ≠ Currencies.UNKNOWN ∧ rr.destination ≠ Currencies.UNKNOWN ∧
        rr.base ≠ rr.destination) := by
  unfold validateRateRequest
  split_ifs with h1 h2 h3 <;> simp [*]

/-- C5: when the stream already has exactly one registration for the
valid pair (base, dest) and the same pair arrives again, the server
sends exactly one InvalidArgument error status echoing the offending
request, the stream stays open (no exit status), and the registry is
completely unchanged — the pair is still registered exactly once. -/
theorem claim_C5_duplicate_subscription (subs : SubsMap) (stream now : ℕ)
    (rr : RateRequest) (sub : ClientSub)
    (hvalid : validateRateRequest rr = "")
    (hsub : alookup subs stream = some sub)
    (hcount : (sub.rateRequests.filter
      (fun r => r.base == rr.base && r.destination == rr.destination)).length = 1) :
    (subscribeRatesStep subs stream (.msg rr) now true).sent =
      [.errorStatus .InvalidArgument duplicateMsg rr] ∧
    (subscribeRatesStep subs stream (.msg rr) now true).continues = true ∧
    (subscribeRatesStep subs stream (.msg rr) now true).retCode = none ∧
    (subscribeRatesStep subs stream (.msg rr) now true).subs = subs ∧
    ∃ sub2, alookup (subscribeRatesStep subs stream (.msg rr) now true).subs stream = some sub2 ∧
      (sub2.rateRequests.filter
        (fun r => r.base == rr.base && r.destination == rr.destination)).length = 1 := by
  have hbase : rr.base ≠ Currencies.UNKNOWN := ((validateRateRequest_empty_iff rr).mp hvalid).1
  have hhb : isHeartbeat rr = false := by
    simp [isHeartbeat, hbase]
  have hex : subscriptionExists subs stream rr = true := by
    have hne : sub.rateRequests.filter
        (fun r => r.base == rr.base && r.destination == rr.destination) ≠ [] := by
      intro hnil
      rw [hnil] at hcount
      simp at hcount
    obtain ⟨r, hr⟩ := List.exists_mem_of_ne_nil _ hne
    have hr2 := List.mem_filter.mp hr
    simp only [subscriptionExists, hsub, List.any_eq_true]
    exact ⟨r, hr2.1, hr2.2⟩
  have hstep : subscribeRatesStep subs stream (.msg rr) now true =
      ⟨subs, [.errorStatus .InvalidArgument duplicateMsg rr], true, none⟩ := by
    simp [subscribeRatesStep, hhb, hvalid, hex]
  rw [hstep]
  exact ⟨rfl, rfl, rfl, rfl, sub, hsub, hcount⟩

/-- Witness for C5: stream 7 already registered for (EUR, USD); the same
pair arrives again. -/
theorem claim_C5_duplicate_subscription_witness :
    (subscribeRatesStep [(7, ⟨[⟨Currencies.EUR, Currencies.USD⟩], 3⟩)] 7
        (.msg ⟨Currencies.EUR, Currencies.USD⟩) 11 true).sent =
      [.errorStatus .InvalidArgument duplicateMsg ⟨Currencies.EUR, Currencies.USD⟩] ∧
    (subscribeRatesStep [(7, ⟨[⟨Currencies.EUR, Currencies.USD⟩], 3⟩)] 7
        (.msg ⟨Currencies.EUR, Currencies.USD⟩) 11 true).subs =
      [(7, ⟨[⟨Currencies.EUR, Currencies.USD⟩], 3⟩)] := by
  have h := claim_C5_duplicate_subscription [(7, ⟨[⟨Currencies.EUR, Currencies.USD⟩], 3⟩)] 7 11
    ⟨Currencies.EUR, Currencies.USD⟩ ⟨[⟨Currencies.EUR, Currencies.USD⟩], 3⟩
    (by decide) (by simp [alookup]) (by decide)
  exact ⟨h.1, h.2.2.2.1⟩

namespace MonitorRates

/-- Embedding of one tick of `ExchangeRates.MonitorRates`
(`currency/data/rates.go`): every entry except EUR is multiplied by
`1 - u` or `1 + u`, where `u = rand.Float64() / 10` and the direction is
`rand.Intn(2)`.  The random draws are passed in explicitly: `chg k` is
the magnitude drawn for entry `k` and `dir k` the direction (0 decreases,
anything else increases, as in the source's `direction == 0` test). -/
def tick (rates : RateTable) (chg : String → ℚ) (dir : String → ℕ) : RateTable :=
  rates.map (fun e =>
    (e.1, if e.1 = "EUR" then e.2
      else e.2 * (if dir e.1 = 0 then 1 - chg e.1 else 1 + chg e.1)))

end MonitorRates

theorem alookup_tick_EUR (rates : RateTable) (chg : String → ℚ) (dir : String → ℕ) :
    alookup (MonitorRates.tick rates chg dir) "EUR" = alookup rates "EUR" := by
  induction rates with
  | nil => rfl
  | cons hd tl ih =>
    obtain ⟨k, v⟩ := hd
    by_cases h : k = "EUR"
    · simp [MonitorRates.tick, alookup, h]
    · simp [MonitorRates.tick, alookup, h]
      simpa [MonitorRates.tick] using ih

/-- C6: for every rate table and every choice of the random draws with
magnitude in [0, 0.1], one monitor tick leaves the EUR entry unchanged
and replaces every other entry v by v times a factor in [0.9, 1.1]; in
particular, from EUR = 1 and USD = 1.10, after one tick EUR is still 1
and USD lies in [0.99, 1.21]. -/
theorem claim_C6_monitor_tick (rates : RateTable) (chg : String → ℚ) (dir : String → ℕ)
    (hchg : ∀ k, 0 ≤ chg k ∧ chg k ≤ 1 / 10) :
    (alookup (MonitorRates.tick rates chg dir) "EUR" = alookup rates "EUR") ∧
    (∀ (i : ℕ) (k : String) (v : ℚ), rates[i]? = some (k, v) → k ≠ "EUR" →
      ∃ f, 9 / 10 ≤ f ∧ f ≤ 11 / 10 ∧
        (MonitorRates.tick rates chg dir)[i]? = some (k, v * f)) ∧
    (rates = demoRates →
      alookup (MonitorRates.tick rates chg dir) "EUR" = some 1 ∧
      ∃ u, alookup (MonitorRates.tick rates chg dir) "USD" = some u ∧
        99 / 100 ≤ u ∧ u ≤ 121 / 100) := by
  have hfac : ∀ k, 9 / 10 ≤ (if dir k = 0 then 1 - chg k else 1 + chg k) ∧
      (if dir k = 0 then 1 - chg k else 1 + chg k) ≤ 11 / 10 := by
    intro k
    obtain ⟨h0, h1⟩ := hchg k
    by_cases hd : dir k = 0 <;> simp [hd] <;> constructor <;> linarith
  refine ⟨alookup_tick_EUR rates chg dir, ?_, ?_⟩
  · intro i k v hi hk
    refine ⟨if dir k = 0 then 1 - chg k else 1 + chg k, (hfac k).1, (hfac k).2, ?_⟩
    simp [MonitorRates.tick, hi, hk]
  · intro hr
    subst hr
    constructor
    · simp [MonitorRates.tick, demoRates, alookup]
    · refine ⟨11 / 10 * (if dir "USD" = 0 then 1 - chg "USD" else 1 + chg "USD"), ?_, ?_, ?_⟩
      · simp [MonitorRates.tick, demoRates, alookup]
      · nlinarith [(hfac "USD").1, (hfac "USD").2]
      · nlinarith [(hfac "USD").1, (hfac "USD").2]

/-- Witness for C6: concrete draws (magnitude 1/20, direction increase)
on the demo table. -/
theorem claim_C6_monitor_tick_witness :
    alookup (MonitorRates.tick demoRates (fun _ => 1 / 20) (fun _ => 1)) "EUR" = some 1 ∧
    ∃ u, alookup (MonitorRates.tick demoRates (fun _ => 1 / 20) (fun _ => 1)) "USD" = some u ∧
      99 / 100 ≤ u ∧ u ≤ 121 / 100 :=
  (claim_C6_monitor_tick demoRates (fun _ => 1 / 20) (fun _ => 1)
    (by intro k; constructor <;> norm_num)).2.2 rfl

/-- Rate-changed event published on the shared bus
(`events.RateChanged` in `product-api/internal/events/types.go`). -/
structure RateChanged where
  currency : String
  newRate : ℚ
deriving DecidableEq

/-- Embedding of the `RateResponse` branch of
`currencyService.handleRateUpdates`
(`product-api/internal/service/currency.go`): store the received rate
under the destination code, and publish a `RateChanged` event exactly
when the code had no cached rate or the cached rate differs.  Returns
the new cache and the event published on the bus, if any. -/
def handleRateResponse (rates : List (String × ℚ)) (resp : RateResponse) :
    List (String × ℚ) × Option RateChanged :=
  let currency := resp.destination.toName
  let newRate := resp.rate
  let oldRate := alookup rates currency
  let rates2 := astore rates currency newRate
  if oldRate = some newRate then (rates2, none)
  else (rates2, some ⟨currency, newRate⟩)

/-- C8: processing a RateResponse for currency c with rate r leaves the
cache holding r under c and touches no other key; it publishes exactly
one RateChanged event with c and r if and only if c had no cached rate
or the cached rate differs from r; when the cached rate already equals
r the cache is left completely unchanged and nothing is published. -/
theorem claim_C8_rate_update_event (rates : List (String × ℚ)) (resp : RateResponse) :
    alookup (handleRateResponse rates resp).1 resp.destination.toName = some resp.rate ∧
    ((handleRateResponse rates resp).2 = some ⟨resp.destination.toName, resp.rate⟩ ↔
      alookup rates resp.destination.toName ≠ some resp.rate) ∧
    ((handleRateResponse rates resp).2 = none ↔
      alookup rates resp.destination.toName = some resp.rate) ∧
    (alookup rates resp.destination.toName = some resp.rate →
      (handleRateResponse rates resp).1 = rates) ∧
    (∀ k, k ≠ resp.destination.toName →
      alookup (handleRateResponse rates resp).1 k = alookup rates k) := by
  by_cases h : alookup rates resp.destination.toName = some resp.rate
  · refine ⟨?_, ?_, ?_, ?_, ?_⟩
    · simp [handleRateResponse, h, alookup_astore_self]
    · simp [handleRateResponse, h]
    · simp [handleRateResponse, h]
    · intro _
      simp [handleRateResponse, h,
        astore_of_alookup_eq rates resp.destination.toName resp.rate h]
    · intro k hk
      simp [handleRateResponse, h,
        alookup_astore_other rates resp.destination.toName k resp.rate hk]
  · refine ⟨?_, ?_, ?_, ?_, ?_⟩
    · simp [handleRateResponse, h, alookup_astore_self]
    · simp [handleRateResponse, h]
    · simp [handleRateResponse, h]
    · intro hcontra
      exact absurd hcontra h
    · intro k hk
      simp [handleRateResponse, h,
        alookup_astore_other rates resp.destination.toName k resp.rate hk]

/-- Witness for C8: first receipt of USD at rate 2 on an empty cache
publishes one event; a repeated receipt on the updated cache does not. -/
theorem claim_C8_rate_update_event_witness :
    (handleRateResponse [] ⟨Currencies.EUR, Currencies.USD, 2⟩).2 =
      some ⟨"USD", 2⟩ ∧
    (handleRateResponse [("USD", 2)] ⟨Currencies.EUR, Currencies.USD, 2⟩).2 = none := by
  constructor
  · exact (claim_C8_rate_update_event [] ⟨Currencies.EUR, Currencies.USD, 2⟩).2.1.mpr
      (by simp [alookup, Currencies.toName])
  · exact (claim_C8_rate_update_event [("USD", 2)] ⟨Currencies.EUR, Currencies.USD, 2⟩).2.2.1.mpr
      (by simp [alookup, Currencies.toName])

/-- Inverse of `Currencies.toName` following Go's
`protos.Currencies_value[name]`: an unknown name maps to the zero value
`UNKNOWN`. -/
def Currencies.ofName (s : String) : Currencies :=
  if s = "EUR" then .EUR
  else if s = "USD" then .USD
  else if s = "GBP" then .GBP
  else if s = "JPY" then .JPY
  else .UNKNOWN

/-- Client-side state of `currencyService`
(`product-api/internal/service/currency.go`): the local rate cache, the
set of destination codes already subscribed, and the rate requests sent
on the bidirectional stream so far. -/
structure CurrencyServiceState where
  rates : List (String × ℚ)
  subscriptions : List String
  sent : List RateRequest
deriving DecidableEq

/-- Result of the synchronous `currencyService.GetRate`: the returned
rate or error, the state after the call, and whether a unary RPC was
issued. -/
structure GetRateResult where
  result : Except String ℚ
  state : CurrencyServiceState
  issuedRpc : Bool

namespace currencyService

/-- Embedding of `currencyService.SubscribeToRates`: for each code not
yet in the local subscription set, mark it subscribed and send
`(EUR, code)` on the stream (sends are recorded in `sent`). -/
def SubscribeToRates : CurrencyServiceState → List String → CurrencyServiceState
  | st, [] => st
  | st, c :: rest =>
      if c ∈ st.subscriptions then SubscribeToRates st rest
      else SubscribeToRates
        { st with
          subscriptions := st.subscriptions ++ [c],
          sent := st.sent ++ [⟨Currencies.ofName "EUR", Currencies.ofName c⟩] } rest

/-- Embedding of the synchronous `currencyService.GetRate`: fast path
returns the cached rate keyed by the destination alone; on a cache miss
it issues the unary RPC (modelled by the `rpc` oracle), stores the
result under the destination, and subscribes to that destination. -/
def GetRate (st : CurrencyServiceState) (base destination : String)
    (rpc : String → String → Except String ℚ) : GetRateResult :=
  match alookup st.rates destination with
  | some r => ⟨.ok r, st, false⟩
  | none =>
    match rpc base destination with
    | .error e => ⟨.error e, st, true⟩
    | .ok r =>
      let st2 := { st with rates := astore st.rates destination r }
      ⟨.ok r, SubscribeToRates st2 [destination], true⟩

end currencyService

theorem SubscribeToRates_rates (cs : List String) (st : CurrencyServiceState) :
    (currencyService.SubscribeToRates st cs).rates = st.rates := by
  induction cs generalizing st with
  | nil => rfl
  | cons c rest ih =>
    by_cases h : c ∈ st.subscriptions <;> simp [currencyService.SubscribeToRates, h, ih]

/-- C10: the client's synchronous GetRate caches by destination only:
after a successful call with base1 (cache miss, RPC answers r), the rate
is cached under the destination, and a subsequent call with ANY base2
and ANY RPC oracle returns the cached r without issuing an RPC and
without changing the state. -/
theorem claim_C10_cache_ignores_base (st : CurrencyServiceState) (base1 base2 dest : String)
    (rpc rpc2 : String → String → Except String ℚ) (r : ℚ)
    (hmiss : alookup st.rates dest = none) (hrpc : rpc base1 dest = .ok r) :
    (currencyService.GetRate st base1 dest rpc).result = .ok r ∧
    (currencyService.GetRate st base1 dest rpc).issuedRpc = true ∧
    alookup (currencyService.GetRate st base1 dest rpc).state.rates dest = some r ∧
    currencyService.GetRate (currencyService.GetRate st base1 dest rpc).state base2 dest rpc2 =
      ⟨.ok r, (currencyService.GetRate st base1 dest rpc).state, false⟩ := by
  have h1 : currencyService.GetRate st base1 dest rpc =
      ⟨.ok r, currencyService.SubscribeToRates
        { st with rates := astore st.rates dest r } [dest], true⟩ := by
    simp [currencyService.GetRate, hmiss, hrpc]
  have h2 : alookup (currencyService.SubscribeToRates
      { st with rates := astore st.rates dest r } [dest]).rates dest = some r := by
    rw [SubscribeToRates_rates]
    exact alookup_astore_self st.rates dest r
  refine ⟨by rw [h1], by rw [h1], by rw [h1]; exact h2, ?_⟩
  rw [h1]
  simp only [currencyService.GetRate, h2]

/-- Witness for C10: cache miss on GBP answered with rate 2 via base
EUR; the follow-up call with base USD hits the cache. -/
theorem claim_C10_cache_ignores_base_witness :
    (currencyService.GetRate ⟨[], [], []⟩ "EUR" "GBP" (fun _ _ => .ok 2)).result = .ok 2 ∧
    currencyService.GetRate
        (currencyService.GetRate ⟨[], [], []⟩ "EUR" "GBP" (fun _ _ => .ok 2)).state
        "USD" "GBP" (fun _ _ => .error "no rpc expected") =
      ⟨.ok 2, (currencyService.GetRate ⟨[], [], []⟩ "EUR" "GBP" (fun _ _ => .ok 2)).state,
        false⟩ := by
  have h := claim_C10_cache_ignores_base ⟨[], [], []⟩ "EUR" "USD" "GBP"
    (fun _ _ => .ok 2) (fun _ _ => .error "no rpc expected") 2 (by simp [alookup]) rfl
  exact ⟨h.1, h.2.2.2⟩

/-- Product model (`product-api/internal/domain/product.go`); Go `int`
embedded as `ℤ`, `float64` as `ℚ`. -/
structure Product where
  id : ℤ
  name : String
  description : String
  price : ℚ
  sku : String
deriving DecidableEq

namespace repository

/-- Embedding of `memoryProductRepository.getNextID`
(`product-api/internal/repository`): 1 on an empty list, otherwise the
LAST stored product's id plus one. -/
def getNextID (products : List Product) : ℤ :=
  match products.getLast? with
  | none => 1
  | some p => p.id + 1

/-- Embedding of `memoryProductRepository.Add`: overwrite the id with
`getNextID` and append. -/
def Add (products : List Product) (p : Product) : List Product :=
  products ++ [{ p with id := getNextID products }]

/-- Embedding of `memoryProductRepository.Update`: replace the first
product with a matching id, `none` (ErrProductNotFound) otherwise. -/
def Update : List Product → Product → Option (List Product)
  | [], _ => none
  | q :: rest, p =>
      if q.id = p.id then some (p :: rest)
      else (Update rest p).map (q :: ·)

/-- Embedding of `memoryProductRepository.Delete`: remove the first
product with a matching id, `none` (ErrProductNotFound) otherwise. -/
def Delete : List Product → ℤ → Option (List Product)
  | [], _ => none
  | q :: rest, i =>
      if q.id = i then some rest
      else (Delete rest i).map (q :: ·)

/-- Seed catalog of `NewMemoryProductRepository`. -/
def seedProducts : List Product :=
  [⟨1, "Latte", "Frothy milky coffee", 245 / 100, "abc323"⟩,
   ⟨2, "Espresso", "Short and strong coffee without milk", 199 / 100, "fjd34"⟩]

end repository

/-- Repository states reachable from the seed catalog through the public
mutations add, update and delete. -/
inductive Reachable : List Product → Prop
  | seed : Reachable repository.seedProducts
  | add {s} (p) : Reachable s → Reachable (repository.Add s p)
  | update {s s2} (p) : Reachable s → repository.Update s p = some s2 → Reachable s2
  | del {s s2} (i) : Reachable s → repository.Delete s i = some s2 → Reachable s2

def idsOf (s : List Product) : List ℤ := s.map (fun p => p.id)

/-- Maximum id in the repository, 0 when empty. -/
def maxId (s : List Product) : ℤ := (idsOf s).foldr max 0

/-- Repository invariant: ids are strictly increasing along the list and
at least 1. -/
def GoodRepo (s : List Product) : Prop :=
  (idsOf s).Pairwise (· < ·) ∧ ∀ x ∈ idsOf s, (1 : ℤ) ≤ x

theorem le_foldr_max (l : List ℤ) : ∀ x ∈ l, x ≤ l.foldr max 0 := by
  induction l with
  | nil => simp
  | cons a tl ih =>
    intro x hx
    rcases List.mem_cons.mp hx with h | h
    · subst h
      exact le_max_left _ _
    · exact (ih x h).trans (le_max_right _ _)

theorem foldr_max_nonneg (l : List ℤ) : 0 ≤ l.foldr max 0 := by
  induction l with
  | nil => simp
  | cons a tl ih => exact ih.trans (le_max_right _ _)

theorem getNextID_eq_maxId (s : List Product) (h : GoodRepo s) :
    repository.getNextID s = maxId s + 1 := by
  induction s with
  | nil => simp [repository.getNextID, maxId, idsOf]
  | cons a tl ih =>
    cases tl with
    | nil =>
      obtain ⟨-, hpos⟩ := h
      have h1 : (1 : ℤ) ≤ a.id := hpos a.id (by simp [idsOf])
      have : max a.id 0 = a.id := max_eq_left (by linarith)
      simp [repository.getNextID, maxId, idsOf, this]
    | cons b tl2 =>
      obtain ⟨hpw, hpos⟩ := h
      have hcons : idsOf (a :: b :: tl2) = a.id :: idsOf (b :: tl2) := by simp [idsOf]
      rw [hcons] at hpw
      have hpw2 := List.pairwise_cons.mp hpw
      have htail : GoodRepo (b :: tl2) := by
        refine ⟨hpw2.2, ?_⟩
        intro x hx
        apply hpos
        rw [hcons]
        exact List.mem_cons_of_mem _ hx
      have hab : a.id < b.id := hpw2.1 b.id (by simp [idsOf])
      have hble : b.id ≤ maxId (b :: tl2) := le_foldr_max _ b.id (by simp [idsOf])
      have hmax : max a.id (maxId (b :: tl2)) = maxId (b :: tl2) :=
        max_eq_right (by linarith)
      have hlast : repository.getNextID (a :: b :: tl2) = repository.getNextID (b :: tl2) := by
        simp [repository.getNextID, List.getLast?_cons_cons]
      rw [hlast, ih htail]
      have hm2 : maxId (a :: b :: tl2) = max a.id (maxId (b :: tl2)) := by
        simp [maxId, idsOf]
      rw [hm2, hmax]

theorem goodRepo_add (s : List Product) (p : Product) (h : GoodRepo s) :
    GoodRepo (repository.Add s p) := by
  obtain ⟨hpw, hpos⟩ := h
  have hnext : repository.getNextID s = maxId s + 1 := getNextID_eq_maxId s ⟨hpw, hpos⟩
  have hids : idsOf (repository.Add s p) = idsOf s ++ [maxId s + 1] := by
    simp [repository.Add, idsOf, hnext]
  constructor
  · rw [hids, List.pairwise_append]
    refine ⟨hpw, by simp, ?_⟩
    intro x hx y hy
    simp at hy
    subst hy
    have := le_foldr_max (idsOf s) x hx
    simp only [maxId] at *
    linarith
  · rw [hids]
    intro x hx
    rcases List.mem_append.mp hx with h | h
    · exact hpos x h
    · simp at h
      subst h
      have := foldr_max_nonneg (idsOf s)
      simp only [maxId]
      linarith

theorem update_ids (s s2 : List Product) (p : Product)
    (h : repository.Update s p = some s2) : idsOf s2 = idsOf s := by
  induction s generalizing s2 with
  | nil => simp [repository.Update] at h
  | cons q rest ih =>
    by_cases hq : q.id = p.id
    · simp [repository.Update, hq] at h
      subst h
      simp [idsOf, hq]
    · simp [repository.Update, hq] at h
      obtain ⟨s3, hs3, hs2⟩ := h
      subst hs2
      simp only [idsOf, List.map_cons]
      rw [show List.map (fun p => p.id) s3 = List.map (fun p => p.id) rest from
        by simpa [idsOf] using ih s3 hs3]

theorem delete_ids_sublist (s s2 : List Product) (i : ℤ)
    (h : repository.Delete s i = some s2) : (idsOf s2).Sublist (idsOf s) := by
  induction s generalizing s2 with
  | nil => simp [repository.Delete] at h
  | cons q rest ih =>
    by_cases hq : q.id = i
    · simp [repository.Delete, hq] at h
      subst h
      simp only [idsOf, List.map_cons]
      exact List.Sublist.cons _ (List.Sublist.refl _)
    · simp [repository.Delete, hq] at h
      obtain ⟨s3, hs3, hs2⟩ := h
      subst hs2
      simpa [idsOf] using (ih s3 hs3).cons₂ q.id

theorem goodRepo_reachable (s : List Product) (h : Reachable s) : GoodRepo s := by
  induction h with
  | seed =>
    refine ⟨?_, ?_⟩ <;> decide
  | add p _ ih => exact goodRepo_add _ p ih
  | update p _ hupd ih =>
    obtain ⟨hpw, hpos⟩ := ih
    rw [← update_ids _ _ _ hupd] at hpw hpos
    exact ⟨hpw, hpos⟩
  | del i _ hdel ih =>
    obtain ⟨hpw, hpos⟩ := ih
    have hsub := delete_ids_sublist _ _ _ hdel
    exact ⟨hpw.sublist hsub, fun x hx => hpos x (hsub.mem hx)⟩

/-- Two products used in witnesses and the C1 counterexample; their id
field is irrelevant because `Add` overwrites it. -/
def demoProduct : Product := ⟨0, "Mocha", "Chocolate-flavoured coffee", 3, "aaa-bbb-ccc"⟩

def demoProduct2 : Product := ⟨0, "Flat White", "Espresso with steamed milk", 4, "ddd-eee-fff"⟩

/-- C1 counterexample: on the seed catalog (ids 1, 2), add assigns id 3;
deleting product 3 returns to the seed state; adding again reassigns the
same id 3 to a different product.  An id is therefore reused after its
product is deleted, refuting the never-reused half of the claim. -/
theorem claim_C1_counterexample :
    idsOf (repository.Add repository.seedProducts demoProduct) = [1, 2, 3] ∧
    (repository.Delete (repository.Add repository.seedProducts demoProduct) 3).map
        (fun s => idsOf (repository.Add s demoProduct2)) = some [1, 2, 3] := by
  constructor <;> decide

/-- C1 (amended): on every reachable repository state, add assigns the
new product the id one greater than the maximum id currently stored
(with the maximum of an empty repository taken as 0, so the first id is
1); ids freed by a delete CAN be assigned again (see the
counterexample), so only the max-plus-one half of the claim holds. -/
theorem claim_C1_next_id (s : List Product) (p : Product) (h : Reachable s) :
    repository.Add s p = s ++ [{ p with id := maxId s + 1 }] := by
  have hg := goodRepo_reachable s h
  simp [repository.Add, getNextID_eq_maxId s hg]

/-- Witness for C1: adding to the seed catalog assigns id 3 = 1 + max{1,2}. -/
theorem claim_C1_next_id_witness :
    repository.Add repository.seedProducts demoProduct =
      repository.seedProducts ++ [{ demoProduct with id := maxId repository.seedProducts + 1 }] ∧
    maxId repository.seedProducts + 1 = 3 :=
  ⟨claim_C1_next_id repository.seedProducts demoProduct Reachable.seed, by decide⟩

namespace productService

/-- Embedding of `productService.GetProducts`
(`product-api/internal/service/product.go`) given the rate obtained for
the requested currency: with an empty currency the stored products are
returned as-is; otherwise each product is copied (`productCopy :=
*product` in the source — the repository list itself is never written)
with its price multiplied by the rate. -/
def GetProducts (repo : List Product) (currency : String) (rate : ℚ) : List Product :=
  if currency = "" then repo
  else repo.map (fun p => { p with price := p.price * rate })

/-- Embedding of `productService.GetProductByID`: the repository's
first-match lookup by id, then the same copy-with-priced-conversion. -/
def GetProductByID (repo : List Product) (id : ℤ) (currency : String) (rate : ℚ) :
    Option Product :=
  match repo.find? (fun p => p.id == id) with
  | none => none
  | some p => if currency = "" then some p else some { p with price := p.price * rate }

end productService

/-- C9: with an empty currency both reads return the stored products
as-is; with a non-empty currency and obtained rate r they return copies
whose price is the stored price times r and whose other fields (id,
name, description, sku) equal the stored ones, position by position —
the stored repository list itself is never modified (the source writes
only to the per-request copies, which is why the embedded operations
return fresh lists and take the repository purely as input). -/
theorem claim_C9_priced_copies (repo : List Product) (currency : String) (rate : ℚ) :
    (currency = "" → productService.GetProducts repo currency rate = repo) ∧
    (currency ≠ "" → ∀ i : ℕ,
      (productService.GetProducts repo currency rate)[i]? =
        (repo[i]?).map (fun p => ⟨p.id, p.name, p.description, p.price * rate, p.sku⟩)) ∧
    (∀ id : ℤ, currency = "" →
      productService.GetProductByID repo id currency rate =
        repo.find? (fun p => p.id == id)) ∧
    (∀ id : ℤ, currency ≠ "" →
      productService.GetProductByID repo id currency rate =
        (repo.find? (fun p => p.id == id)).map
          (fun p => ⟨p.id, p.name, p.description, p.price * rate, p.sku⟩)) := by
  refine ⟨?_, ?_, ?_, ?_⟩
  · intro h
    simp [productService.GetProducts, h]
  · intro h i
    simp only [productService.GetProducts, if_neg h, List.getElem?_map]
  · intro id h
    cases hf : repo.find? (fun p => p.id == id) with
    | none => simp [productService.GetProductByID, hf]
    | some p => simp [productService.GetProductByID, hf, h]
  · intro id h
    cases hf : repo.find? (fun p => p.id == id) with
    | none => simp [productService.GetProductByID, hf]
    | some p => simp [productService.GetProductByID, hf, h]

/-- Witness for C9: the seed catalog priced in USD at rate 2 yields the
Latte copy with doubled price and identical other fields. -/
theorem claim_C9_priced_copies_witness :
    (productService.GetProducts repository.seedProducts "USD" 2)[0]? =
      some ⟨1, "Latte", "Frothy milky coffee", 245 / 100 * 2, "abc323"⟩ := by
  have h := (claim_C9_priced_copies repository.seedProducts "USD" 2).2.1
    (by decide) 0
  rw [h]
  rfl

end Micro
